import Mathlib

/-!
Verification of the SpiceDB MCP server's backend client and
response-normalization layer (`src/index.ts`, `src/spicedb-client.ts`).

JavaScript strings are modelled as lists of characters (`JStr`); the
JavaScript string built-ins the source uses (`split`, `trim`, `includes`,
`startsWith`, `repeat`, `replace`) are given faithful models below.
-/

/-- Model of a JavaScript string: a list of characters. -/
abbrev JStr := List Char

namespace JsStr

/-- JS whitespace (the characters relevant to this codebase): matched by
`trim` and the regex class `\s`. -/
def isWS (c : Char) : Bool :=
  c = ' ' || c = '\t' || c = '\n' || c = '\r' || c = '\x0b' || c = '\x0c'

/-- Model of `s.trim()`: strip leading and trailing whitespace. -/
def jsTrim (s : JStr) : JStr :=
  ((s.dropWhile isWS).reverse.dropWhile isWS).reverse

/-- Model of `s.split(sep)` for a single-character separator: split on every
occurrence of `sep`, keeping empty segments (`"".split(sep) == [""]`). -/
def jsSplit (sep : Char) : JStr → List JStr
  | [] => [[]]
  | c :: cs =>
    if c = sep then [] :: jsSplit sep cs
    else (jsSplit sep cs).modifyHead (c :: ·)

/-- The segment of `s` before the first occurrence of `c`
(all of `s` when `c` does not occur). -/
def beforeChar (c : Char) : JStr → JStr
  | [] => []
  | x :: xs => if x = c then [] else x :: beforeChar c xs

/-- The segment of `s` after the first occurrence of `c`
(empty when `c` does not occur). -/
def afterChar (c : Char) : JStr → JStr
  | [] => []
  | x :: xs => if x = c then xs else afterChar c xs

/-- Number of occurrences of `c` in `s` (model of `(s.match(/c/g) || []).length`). -/
def countChar (c : Char) : JStr → Nat
  | [] => 0
  | x :: xs => (if x = c then 1 else 0) + countChar c xs

/-- Model of `parts.join(sep)` / building `l1 + "\n" + l2 + ...`. -/
def joinWith (sep : Char) : List JStr → JStr
  | [] => []
  | [l] => l
  | l :: ls => l ++ sep :: joinWith sep ls

end JsStr

open JsStr

/-- Shorthand for the list-of-characters model of a string literal. -/
def str (s : String) : JStr := s.data

/-- Truthiness of an optional string field: a JS `if (x)` on a string-valued
field is false when the field is absent (`none`) or the empty string. -/
def truthyStr : Option JStr → Bool
  | none => false
  | some s => !s.isEmpty

/-! ## Relationship codec (`spicedb-client.ts`) -/

/-- `{objectType, objectId}` object reference. -/
structure ObjectRef where
  objectType : JStr
  objectId : JStr
deriving DecidableEq, Repr

/-- `{object, optionalRelation?}` subject reference. -/
structure SubjectRef where
  object : ObjectRef
  optionalRelation : Option JStr
deriving DecidableEq, Repr

/-- `{resource, relation, subject}` relationship. -/
structure Relationship where
  resource : ObjectRef
  relation : JStr
  subject : SubjectRef
deriving DecidableEq, Repr

/-- Model of `objectRefToString`: `` `${ref.objectType}:${ref.objectId}` ``. -/
def objectRefToString (ref : ObjectRef) : JStr :=
  ref.objectType ++ ':' :: ref.objectId

/-- Model of `subjectRefToString`: the object reference, suffixed with
`#optionalRelation` when that field is truthy. -/
def subjectRefToString (ref : SubjectRef) : JStr :=
  let base := objectRefToString ref.object
  match ref.optionalRelation with
  | some r => if r.isEmpty then base else base ++ '#' :: r
  | none => base

/-- The record returned by `parseRelationshipString`. -/
structure ParsedRelationship where
  resourceType : JStr
  resourceId : JStr
  relation : JStr
  subjectType : JStr
  subjectId : JStr
  optionalSubjectRelation : Option JStr
deriving DecidableEq, Repr

/-- The two `throw new Error(...)` shapes of `parseRelationshipString`. -/
inductive RelFormatError where
  | invalidRelationshipFormat (s : JStr)
  | invalidSubjectFormat (s : JStr)
deriving DecidableEq, Repr

instance {ε α : Type} [DecidableEq ε] [DecidableEq α] :
    DecidableEq (Except ε α) := fun a b =>
  match a, b with
  | .error e, .error e' =>
    if h : e = e' then .isTrue (by rw [h]) else .isFalse (by simp [h])
  | .error _, .ok _ => .isFalse (by simp)
  | .ok _, .error _ => .isFalse (by simp)
  | .ok v, .ok v' =>
    if h : v = v' then .isTrue (by rw [h]) else .isFalse (by simp [h])

/-- Model of `parseRelationshipString` (`spicedb-client.ts` lines 1233–1296,
in the concatenated `src/index.ts` numbering).  The source splits the whole
input on `#` first (`relationshipStr.split('#')`), takes `parts[0]` and
`parts[1]`, and then asks whether `subjectPart` — a substring of `parts[1]` —
contains `#`. -/
def parseRelationshipString (relationshipStr : JStr) :
    Except RelFormatError ParsedRelationship :=
  let parts := jsSplit '#' relationshipStr
  let resourcePart := jsSplit ':' (parts.getD 0 [])
  if parts.length < 2 ∨ resourcePart.length ≠ 2 then
    .error (.invalidRelationshipFormat relationshipStr)
  else
    let resourceType := resourcePart.getD 0 []
    let resourceId := resourcePart.getD 1 []
    let relationSubjectParts := jsSplit '@' (parts.getD 1 [])
    if relationSubjectParts.length ≠ 2 then
      .error (.invalidRelationshipFormat relationshipStr)
    else
      let relation := relationSubjectParts.getD 0 []
      let subjectPart := relationSubjectParts.getD 1 []
      if subjectPart.contains '#' then
        let subjectParts := jsSplit '#' subjectPart
        let subjectRefParts := jsSplit ':' (subjectParts.getD 0 [])
        if subjectRefParts.length ≠ 2 then
          .error (.invalidSubjectFormat subjectPart)
        else
          .ok { resourceType := resourceType, resourceId := resourceId,
                relation := relation,
                subjectType := subjectRefParts.getD 0 [],
                subjectId := subjectRefParts.getD 1 [],
                optionalSubjectRelation := some (subjectParts.getD 1 []) }
      else
        let subjectRefParts := jsSplit ':' subjectPart
        if subjectRefParts.length ≠ 2 then
          .error (.invalidSubjectFormat subjectPart)
        else
          .ok { resourceType := resourceType, resourceId := resourceId,
                relation := relation,
                subjectType := subjectRefParts.getD 0 [],
                subjectId := subjectRefParts.getD 1 [],
                optionalSubjectRelation := none }

/-- Model of `createRelationship`: direct construction; the
`optionalRelation` key is set only when `optionalSubjectRelation` is truthy. -/
def createRelationship (resourceType resourceId relation subjectType subjectId : JStr)
    (optionalSubjectRelation : Option JStr) : Relationship :=
  { resource := { objectType := resourceType, objectId := resourceId },
    relation := relation,
    subject := { object := { objectType := subjectType, objectId := subjectId },
                 optionalRelation :=
                   if truthyStr optionalSubjectRelation then optionalSubjectRelation
                   else none } }

/-- How the server renders a relationship as text (`index.ts` line 325):
`` `${resource}#${relation}@${subject}` `` with `subjectRefToString`. -/
def formatRelationship (rel : Relationship) : JStr :=
  objectRefToString rel.resource ++ '#' :: rel.relation ++ '@' ::
    subjectRefToString rel.subject

/-- Parse a relationship string and format the parsed components back into
the textual notation. -/
def roundTripRelationship (s : JStr) : Option JStr :=
  (parseRelationshipString s).toOption.map fun p =>
    formatRelationship
      (createRelationship p.resourceType p.resourceId p.relation
        p.subjectType p.subjectId p.optionalSubjectRelation)

/-- The segment of the input before the first `#` (which
`parseRelationshipString` splits on `:` as the resource reference). -/
def resourceSegment (s : JStr) : JStr := beforeChar '#' s

/-- The segment of the input strictly between the first `#` and the second
`#` (or the end of the string): this is `parts[1]`, which
`parseRelationshipString` splits on `@`. -/
def relationSubjectSegment (s : JStr) : JStr :=
  beforeChar '#' (afterChar '#' s)

/-- The subject reference segment: the part of `relationSubjectSegment`
after its first `@`. -/
def subjectSegment (s : JStr) : JStr :=
  afterChar '@' (relationSubjectSegment s)

/-- The `optionalRelation: {relation}` wrapper nested inside a subject
filter. -/
structure SubjectRelationRef where
  relation : JStr
deriving DecidableEq, Repr

/-- The `optionalSubjectFilter` object built by `createRelationshipFilter`. -/
structure SubjectFilter where
  subjectType : JStr
  optionalSubjectId : Option JStr
  optionalRelation : Option SubjectRelationRef
deriving DecidableEq, Repr

/-- The relationship filter object; `none` models an absent key. -/
structure RelationshipFilter where
  resourceType : Option JStr
  optionalResourceId : Option JStr
  optionalRelation : Option JStr
  optionalSubjectFilter : Option SubjectFilter
deriving DecidableEq, Repr

/-- Model of `createRelationshipFilter`: starts from `{}` and adds each key
only when the corresponding argument is truthy; subject fields are nested
under `optionalSubjectFilter`, which is created only when `subjectType` is
truthy. -/
def createRelationshipFilter
    (resourceType resourceId relation subjectType subjectId subjectRelation :
      Option JStr) : RelationshipFilter :=
  let filter : RelationshipFilter :=
    { resourceType := none, optionalResourceId := none,
      optionalRelation := none, optionalSubjectFilter := none }
  let filter :=
    if truthyStr resourceType then { filter with resourceType := resourceType }
    else filter
  let filter :=
    if truthyStr resourceId then { filter with optionalResourceId := resourceId }
    else filter
  let filter :=
    if truthyStr relation then { filter with optionalRelation := relation }
    else filter
  if truthyStr subjectType then
    let sf : SubjectFilter :=
      { subjectType := subjectType.getD [], optionalSubjectId := none,
        optionalRelation := none }
    let sf :=
      if truthyStr subjectId then { sf with optionalSubjectId := subjectId }
      else sf
    let sf :=
      if truthyStr subjectRelation then
        { sf with optionalRelation := subjectRelation.map (fun r => { relation := r }) }
      else sf
    { filter with optionalSubjectFilter := some sf }
  else filter

/-! ## Backend transport (`makeRequest` success path) -/

/-- The normalized result of a successful response: `null` for an
empty/204 body, a single parsed value for a one-line body, or the list of
parsed values for a multi-line body. -/
inductive TransportResult (α : Type) where
  | nullResult
  | single (v : α)
  | many (vs : List α)
deriving DecidableEq, Repr

/-- Model of the `.map` over response lines: parse each line in order,
failing the whole call with the first line that does not parse. -/
def parseResponseLines (parse : JStr → Option α) : List JStr → Except JStr (List α)
  | [] => .ok []
  | l :: ls =>
    match parse l with
    | none => .error l
    | some v => (parseResponseLines parse ls).map (v :: ·)

/-- Model of `makeRequest`'s successful-response body handling
(lines 1171–1197): empty-after-trim body yields `null`; otherwise the body is
split on newlines, blank lines are discarded, each remaining line is parsed
(`parse` stands for `JSON.parse` on one line), and a single parsed value is
returned unwrapped while several are returned as the list. -/
def processResponseBody (parse : JStr → Option α) (responseText : JStr) :
    Except JStr (TransportResult α) :=
  if jsTrim responseText = [] then .ok .nullResult
  else
    let lines := (jsSplit '\n' responseText).filter (fun l => !(jsTrim l).isEmpty)
    match parseResponseLines parse lines with
    | .error l => .error l
    | .ok [v] => .ok (.single v)
    | .ok results => .ok (.many results)

/-! ## Paginated result aggregators

The backend is modelled as the sequence of responses it returns to the
successive requests of one aggregation loop.  Each loop function returns
`some (results, n)` when the `while (hasMore)` loop terminates after issuing
`n` requests, and `none` when the loop is still running after consuming every
scripted response — i.e. it issues strictly more requests than were
scripted. -/

/-- The fields of a nested `result` object that the pagination loops
inspect.  `relationship` is the presence (truthiness) of the
`result.relationship` field; `afterResultCursor` is `none` when that key is
absent.  `tag` stands for the rest of the result payload: the loops never
read it, but it identifies the result object so that ordering and
concatenation of results can be stated. -/
structure ReadResult where
  relationship : Bool
  afterResultCursor : Option JStr
  tag : Nat
deriving DecidableEq, Repr

/-- A response to one `/v1/relationships/read` request: a JSON array of
items (each item's `result` field, `none` when absent/falsy), a single
non-array object (the legacy shape; its fields modelled by `ReadResult`,
where `relationship` models `'relationship' in response`), or
`null`/anything else. -/
inductive RRResponse where
  | arr (items : List (Option ReadResult))
  | single (r : ReadResult)
  | nullResp
deriving DecidableEq, Repr

/-- One step of the `for (const item of response)` body of
`readRelationships`: push `item.result` when it exists and carries a truthy
`relationship`, and overwrite the cursor when the result carries a truthy
`afterResultCursor`. -/
def rrItemStep (st : Option JStr × List ReadResult) (item : Option ReadResult) :
    Option JStr × List ReadResult :=
  match item with
  | some r =>
    if r.relationship then
      (if truthyStr r.afterResultCursor then r.afterResultCursor else st.1,
       st.2 ++ [r])
    else st
  | none => st

/-- Model of the `while (hasMore)` loop of `readRelationships`
(lines 1378–1430): `cursor` and `results` are the mutable loop variables.
The array branch folds `rrItemStep` over the items and then clears `hasMore`
when `cursor === null || results.length === 0`; the legacy branch pushes the
response and continues exactly when the `afterResultCursor` key is present;
any other response clears `hasMore`. -/
def readRelationshipsLoop :
    List RRResponse → Option JStr → List ReadResult →
      Option (List ReadResult × Nat)
  | [], _, _ => none
  | page :: rest, cursor, results =>
    match page with
    | .arr items =>
      let st := items.foldl rrItemStep (cursor, results)
      if st.1 = none ∨ st.2.length = 0 then some (st.2, 1)
      else (readRelationshipsLoop rest st.1 st.2).map fun p => (p.1, p.2 + 1)
    | .single r =>
      if r.relationship then
        let results' := results ++ [r]
        match r.afterResultCursor with
        | some c =>
          (readRelationshipsLoop rest (some c) results').map fun p => (p.1, p.2 + 1)
        | none => some (results', 1)
      else some (results, 1)
    | .nullResp => some (results, 1)

/-- `readRelationships` run against a scripted backend, starting from
`cursor = null`, `results = []`. -/
def readRelationships (pages : List RRResponse) : Option (List ReadResult × Nat) :=
  readRelationshipsLoop pages none []

/-- The fields of a nested `result` object that `lookupResources` /
`lookupSubjects` inspect.  `resourceObjectId` is the presence of the
`resourceObjectId` key (used only by `lookupResources`' legacy-shape check);
`tag` stands for the rest of the payload. -/
structure LookupResult where
  resourceObjectId : Bool
  afterResultCursor : Option JStr
  tag : Nat
deriving DecidableEq, Repr

/-- A response to one lookup request (same three shapes as `RRResponse`). -/
inductive LookupResponse where
  | arr (items : List (Option LookupResult))
  | single (r : LookupResult)
  | nullResp
deriving DecidableEq, Repr

/-- One step of the `for (const item of response)` body of `lookupResources`
and `lookupSubjects`: push `item.result` when it exists (no further
predicate), and overwrite the cursor when it carries a truthy
`afterResultCursor`. -/
def lookupItemStep (st : Option JStr × List LookupResult) (item : Option LookupResult) :
    Option JStr × List LookupResult :=
  match item with
  | some r =>
    (if truthyStr r.afterResultCursor then r.afterResultCursor else st.1,
     st.2 ++ [r])
  | none => st

/-- Model of the `while (hasMore)` loop of `lookupResources`
(lines 1445–1497); the legacy branch fires when `'resourceObjectId' in
response`. -/
def lookupResourcesLoop :
    List LookupResponse → Option JStr → List LookupResult →
      Option (List LookupResult × Nat)
  | [], _, _ => none
  | page :: rest, cursor, results =>
    match page with
    | .arr items =>
      let st := items.foldl lookupItemStep (cursor, results)
      if st.1 = none ∨ st.2.length = 0 then some (st.2, 1)
      else (lookupResourcesLoop rest st.1 st.2).map fun p => (p.1, p.2 + 1)
    | .single r =>
      if r.resourceObjectId then
        let results' := results ++ [r]
        match r.afterResultCursor with
        | some c =>
          (lookupResourcesLoop rest (some c) results').map fun p => (p.1, p.2 + 1)
        | none => some (results', 1)
      else some (results, 1)
    | .nullResp => some (results, 1)

/-- `lookupResources` run against a scripted backend. -/
def lookupResources (pages : List LookupResponse) :
    Option (List LookupResult × Nat) :=
  lookupResourcesLoop pages none []

/-- Model of the `while (hasMore)` loop of `lookupSubjects`
(lines 1500–1552); the legacy branch fires for any truthy non-array
response. -/
def lookupSubjectsLoop :
    List LookupResponse → Option JStr → List LookupResult →
      Option (List LookupResult × Nat)
  | [], _, _ => none
  | page :: rest, cursor, results =>
    match page with
    | .arr items =>
      let st := items.foldl lookupItemStep (cursor, results)
      if st.1 = none ∨ st.2.length = 0 then some (st.2, 1)
      else (lookupSubjectsLoop rest st.1 st.2).map fun p => (p.1, p.2 + 1)
    | .single r =>
      let results' := results ++ [r]
      match r.afterResultCursor with
      | some c =>
        (lookupSubjectsLoop rest (some c) results').map fun p => (p.1, p.2 + 1)
      | none => some (results', 1)
    | .nullResp => some (results, 1)

/-- `lookupSubjects` run against a scripted backend. -/
def lookupSubjects (pages : List LookupResponse) :
    Option (List LookupResult × Nat) :=
  lookupSubjectsLoop pages none []

/-! ## `checkPermission` request construction -/

/-- The two consistency value constructors (`fullConsistency`,
`minimalLatency`). -/
inductive Consistency where
  | fullyConsistent
  | minimizeLatency
deriving DecidableEq, Repr

/-- The parameters a caller hands to `checkPermission` (`index.ts`
lines 618–627): each field `none` when the caller leaves it undefined. -/
structure CheckPermissionParams where
  consistency : Option Consistency
  resource : Option ObjectRef
  permission : Option JStr
  subject : Option SubjectRef
  withTracing : Option Bool
deriving DecidableEq, Repr

/-- Model of `checkPermission` (lines 1433–1442): spread the caller's params
into `modifiedParams` and set `withTracing = true` only when
`params.withTracing === undefined`; the result is the backend request
body. -/
def checkPermissionBody (params : CheckPermissionParams) : CheckPermissionParams :=
  if params.withTracing = none then { params with withTracing := some true }
  else params

/-! ## Decision trace renderer (`generateTraceExplanation`, lines 88–134) -/

/-- A trace's subject: `object` is checked for truthiness before use, so it
is optional here. -/
structure TraceSubject where
  object : Option ObjectRef
  optionalRelation : Option JStr
deriving DecidableEq, Repr

/-- The recursive debug-trace tree.  The source reads
`trace.subProblems.traces`; the `{traces: [...]}` wrapper is collapsed into
the optional child list (`trace.subProblems && trace.subProblems.traces`
being falsy is modelled by `none`). -/
inductive DecisionTrace where
  | node (resource : ObjectRef) (permission : JStr) (permissionType : JStr)
      (subject : TraceSubject) (result : JStr) (duration : Option JStr)
      (subProblems : Option (List DecisionTrace))

def DecisionTrace.resource : DecisionTrace → ObjectRef
  | .node r _ _ _ _ _ _ => r

def DecisionTrace.permission : DecisionTrace → JStr
  | .node _ p _ _ _ _ _ => p

def DecisionTrace.permissionType : DecisionTrace → JStr
  | .node _ _ pt _ _ _ _ => pt

def DecisionTrace.subject : DecisionTrace → TraceSubject
  | .node _ _ _ s _ _ _ => s

def DecisionTrace.result : DecisionTrace → JStr
  | .node _ _ _ _ r _ _ => r

def DecisionTrace.duration : DecisionTrace → Option JStr
  | .node _ _ _ _ _ d _ => d

def DecisionTrace.subProblems : DecisionTrace → Option (List DecisionTrace)
  | .node _ _ _ _ _ _ sp => sp

/-- Model of `'  '.repeat(depth)`. -/
def indentOf (depth : Nat) : JStr :=
  (List.replicate depth (str "  ")).flatten

/-- Model of `s.replace(pat, '')` for a plain-string pattern: remove the
first occurrence of `pat`, if any. -/
def replaceFirst (pat : JStr) : JStr → JStr
  | [] => []
  | c :: cs =>
    if pat.isPrefixOf (c :: cs) then (c :: cs).drop pat.length
    else c :: replaceFirst pat cs

/-- The `Checking if ... : ...` line of one trace node, without its
indentation (the part of the template literal after `${indent}`). -/
def traceLineBody (t : DecisionTrace) : JStr :=
  let resourceStr := t.resource.objectType ++ ':' :: t.resource.objectId
  let permissionTypeStr :=
    if t.permissionType = str "PERMISSION_TYPE_PERMISSION" then str "permission"
    else str "relation"
  let subjectStr :=
    match t.subject.object with
    | some o =>
      o.objectType ++ ':' :: o.objectId ++
        (match t.subject.optionalRelation with
         | some r => if r.isEmpty then [] else '#' :: r
         | none => [])
    | none => str "unknown subject"
  let resultStr := replaceFirst (str "PERMISSIONSHIP_") t.result
  str "Checking if " ++ subjectStr ++ str " has " ++ permissionTypeStr ++
    str " \"" ++ t.permission ++ str "\" on " ++ resourceStr ++ str ": " ++
    resultStr ++ ['\n']

/-- The full `Checking if ...` line of one trace node at depth `depth`. -/
def traceLine (t : DecisionTrace) (depth : Nat) : JStr :=
  indentOf depth ++ traceLineBody t

/-- The optional `(took ...)` timing line of one trace node. -/
def traceDurationLine (duration : Option JStr) (depth : Nat) : JStr :=
  match duration with
  | some d =>
    if d.isEmpty then []
    else indentOf depth ++ str "(took " ++ d ++ str ")" ++ ['\n']
  | none => []

mutual

/-- Model of `generateTraceExplanation`: an absent trace yields the fixed
no-trace-data line; a node renders its own line, an optional
`(took ...)` line, and, when child traces exist and are non-empty, the
`This was determined by:` line followed by each child rendered at
`depth + 1`, in order. -/
def generateTraceExplanation : Option DecisionTrace → Nat → JStr
  | none, _ => str "No trace data available"
  | some t, depth => renderTraceNode t depth

/-- The non-null branch of `generateTraceExplanation`. -/
def renderTraceNode : DecisionTrace → Nat → JStr
  | t@(.node _ _ _ _ _ duration subProblems), depth =>
    let indent := indentOf depth
    let durationLine := traceDurationLine duration depth
    let subLines :=
      match subProblems with
      | some ts =>
        if ts.length > 0 then
          indent ++ str "This was determined by:" ++ ['\n'] ++
            renderTraceList ts (depth + 1)
        else []
      | none => []
    traceLine t depth ++ durationLine ++ subLines
termination_by t _ => sizeOf t

/-- The `for (const subTrace of trace.subProblems.traces)` loop:
concatenate the children's renderings in order. -/
def renderTraceList : List DecisionTrace → Nat → JStr
  | [], _ => []
  | t :: ts, depth => renderTraceNode t depth ++ renderTraceList ts depth
termination_by ts _ => sizeOf ts

end

/-! ## Schema definition extractor (`extractObjectDefinitionsFromSchema`,
lines 35–85) -/

/-- The regex class `\w`: `[A-Za-z0-9_]`. -/
def isWordChar (c : Char) : Bool :=
  c.isAlphanum || c = '_'

/-- Attempt to match the regex `definition\s+(\w+)\s*\x7b` at the start of
`l`, returning the capture group.  Since `\w`, `\s` and `\x7b` are pairwise
disjoint character classes, greedy matching without backtracking is exact. -/
def matchDefinitionAt (l : JStr) : Option JStr :=
  if (str "definition").isPrefixOf l then
    match l.drop 10 with
    | c :: r =>
      if isWS c then
        let afterWS := r.dropWhile isWS
        let word := afterWS.takeWhile isWordChar
        if word.isEmpty then none
        else
          match (afterWS.dropWhile isWordChar).dropWhile isWS with
          | '\x7b' :: _ => some word
          | _ => none
      else none
    | [] => none
  else none

/-- Model of `trimmedLine.match(/definition\s+(\w+)\s*\x7b/)`: the regex is
unanchored, so try every start position from left to right. -/
def findDefinitionMatch : JStr → Option JStr
  | [] => none
  | c :: rest => (matchDefinitionAt (c :: rest)).orElse fun _ => findDefinitionMatch rest

/-- The mutable state of the extractor's line scan.  `acc` collects the
object-type names pushed so far (the source pushes a resource descriptor
`{uri, name, description}` each of whose fields is determined by
`currentObjectType`, so the name list determines the output). -/
structure ExtractState where
  insideDefinition : Bool
  currentObjectType : JStr
  currentDef : JStr
  braceCount : Int
  acc : List JStr
deriving DecidableEq, Repr

/-- The `if (insideDefinition)` half of the loop body: append the line to
the current block, update the brace balance by the line's `\x7b` and `\x7d`
counts, and emit the definition when the balance returns to zero. -/
def extractContinueStep (st : ExtractState) (line : JStr) : ExtractState :=
  if st.insideDefinition then
    let currentDef := st.currentDef ++ line ++ ['\n']
    let braceCount :=
      st.braceCount + (countChar '\x7b' line : Int) - (countChar '\x7d' line : Int)
    if braceCount = 0 then
      { insideDefinition := false, currentObjectType := [], currentDef := [],
        braceCount := braceCount, acc := st.acc ++ [st.currentObjectType] }
    else
      { st with currentDef := currentDef, braceCount := braceCount }
  else st

/-- One iteration of `for (const line of lines)`: when the trimmed line
starts with `definition ` and the regex matches, start a new block (the
`continue` skips the brace counting for this line — including any `\x7d` on
it); otherwise fall through to the inside-a-definition collection. -/
def extractStep (st : ExtractState) (line : JStr) : ExtractState :=
  let trimmedLine := jsTrim line
  if (str "definition ").isPrefixOf trimmedLine then
    match findDefinitionMatch trimmedLine with
    | some nm =>
      { st with
        insideDefinition := true
        currentObjectType := nm
        currentDef := line ++ ['\n']
        braceCount := 1 }
    | none => extractContinueStep st line
  else extractContinueStep st line

/-- Model of `extractObjectDefinitionsFromSchema`: split the schema text
into lines and scan them; returns the object-type names of the emitted
definition blocks, in emission order. -/
def extractObjectDefinitionsFromSchema (schemaText : JStr) : List JStr :=
  if schemaText.isEmpty then []
  else
    ((jsSplit '\n' schemaText).foldl extractStep
      { insideDefinition := false, currentObjectType := [], currentDef := [],
        braceCount := 0, acc := [] }).acc

namespace JsStr

theorem jsSplit_ne_nil (sep : Char) (s : JStr) : jsSplit sep s ≠ [] := by
  induction s with
  | nil => simp [jsSplit]
  | cons c cs ih =>
    simp only [jsSplit]
    split
    · simp
    · intro h
      exact ih (List.modifyHead_eq_nil_iff.mp h)

theorem jsSplit_of_not_mem {sep : Char} {s : JStr} (h : sep ∉ s) :
    jsSplit sep s = [s] := by
  induction s with
  | nil => rfl
  | cons c cs ih =>
    simp only [List.mem_cons, not_or] at h
    simp only [jsSplit, if_neg (Ne.symm h.1), ih h.2,
      List.modifyHead_cons]

theorem jsSplit_of_mem {sep : Char} {s : JStr} (h : sep ∈ s) :
    jsSplit sep s = beforeChar sep s :: jsSplit sep (afterChar sep s) := by
  induction s with
  | nil => cases h
  | cons c cs ih =>
    by_cases hc : c = sep
    · subst hc
      simp [jsSplit, beforeChar, afterChar]
    · have hmem : sep ∈ cs := by
        rcases List.mem_cons.mp h with h' | h'
        · exact absurd h'.symm hc
        · exact h'
      simp only [jsSplit, if_neg hc, beforeChar, afterChar, ih hmem,
        List.modifyHead_cons]

theorem beforeChar_of_not_mem {sep : Char} {s : JStr} (h : sep ∉ s) :
    beforeChar sep s = s := by
  induction s with
  | nil => rfl
  | cons c cs ih =>
    simp only [List.mem_cons, not_or] at h
    simp only [beforeChar, if_neg (Ne.symm h.1), ih h.2]

theorem length_jsSplit (sep : Char) (s : JStr) :
    (jsSplit sep s).length = countChar sep s + 1 := by
  induction s with
  | nil => rfl
  | cons c cs ih =>
    simp only [jsSplit, countChar]
    split
    · simpa [ih] using by omega
    · simpa [List.length_modifyHead] using ih

theorem not_mem_of_mem_jsSplit {sep : Char} {s t : JStr}
    (h : t ∈ jsSplit sep s) : sep ∉ t := by
  induction s generalizing t with
  | nil =>
    simp only [jsSplit, List.mem_singleton] at h
    subst h; simp
  | cons c cs ih =>
    simp only [jsSplit] at h
    split at h
    · rcases List.mem_cons.mp h with h' | h'
      · subst h'; simp
      · exact ih h'
    · rcases hsplit : jsSplit sep cs with _ | ⟨u, us⟩
      · exact absurd hsplit (jsSplit_ne_nil sep cs)
      · rw [hsplit, List.modifyHead_cons] at h
        rcases List.mem_cons.mp h with h' | h'
        · subst h'
          have hu : sep ∉ u := ih (hsplit ▸ List.mem_cons_self u us)
          simp only [List.mem_cons, not_or]
          rename_i hc
          exact ⟨fun hsc => hc hsc.symm, hu⟩
        · exact ih (hsplit ▸ List.mem_cons_of_mem u h')

theorem countChar_afterChar_of_mem {sep : Char} {s : JStr} (h : sep ∈ s) :
    countChar sep s = countChar sep (afterChar sep s) + 1 := by
  induction s with
  | nil => cases h
  | cons c cs ih =>
    by_cases hc : c = sep
    · subst hc
      simp [countChar, afterChar]
      omega
    · have hmem : sep ∈ cs := by
        rcases List.mem_cons.mp h with h' | h'
        · exact absurd h'.symm hc
        · exact h'
      simp only [countChar, afterChar, if_neg hc, ih hmem]
      omega

theorem mem_of_countChar_pos {sep : Char} {s : JStr}
    (h : 0 < countChar sep s) : sep ∈ s := by
  induction s with
  | nil => simp [countChar] at h
  | cons c cs ih =>
    by_cases hc : c = sep
    · subst hc; exact List.mem_cons_self c cs
    · simp only [countChar, if_neg hc, Nat.zero_add] at h
      exact List.mem_cons_of_mem c (ih h)

theorem jsSplit_of_countChar_one {sep : Char} {s : JStr}
    (h : countChar sep s = 1) :
    jsSplit sep s = [beforeChar sep s, afterChar sep s] := by
  have hmem : sep ∈ s := mem_of_countChar_pos (by omega)
  have hafter : countChar sep (afterChar sep s) = 0 := by
    have := countChar_afterChar_of_mem hmem
    omega
  have hnotmem : sep ∉ afterChar sep s := by
    intro hsm
    have := countChar_afterChar_of_mem hsm
    omega
  rw [jsSplit_of_mem hmem, jsSplit_of_not_mem hnotmem]

theorem not_mem_afterChar {c sep : Char} {s : JStr} (h : c ∉ s) :
    c ∉ afterChar sep s := by
  induction s with
  | nil => simp [afterChar]
  | cons x xs ih =>
    simp only [List.mem_cons, not_or] at h
    simp only [afterChar]
    split
    · exact h.2
    · exact ih h.2

theorem not_mem_beforeChar (c : Char) (s : JStr) : c ∉ beforeChar c s := by
  induction s with
  | nil => simp [beforeChar]
  | cons x xs ih =>
    simp only [beforeChar]
    split
    · simp
    · simp only [List.mem_cons, not_or]
      rename_i hx
      exact ⟨fun hc => hx hc.symm, ih⟩

theorem jsSplit_getD_zero (sep : Char) (s : JStr) :
    (jsSplit sep s).getD 0 [] = beforeChar sep s := by
  by_cases h : sep ∈ s
  · rw [jsSplit_of_mem h]; rfl
  · rw [jsSplit_of_not_mem h, beforeChar_of_not_mem h]; rfl

theorem jsSplit_getD_one_of_mem {sep : Char} {s : JStr} (h : sep ∈ s) :
    (jsSplit sep s).getD 1 [] = beforeChar sep (afterChar sep s) := by
  rw [jsSplit_of_mem h]
  show (jsSplit sep (afterChar sep s)).getD 0 [] = _
  exact jsSplit_getD_zero sep (afterChar sep s)

theorem jsSplit_append_cons {sep : Char} {l : JStr} (t : JStr) (h : sep ∉ l) :
    jsSplit sep (l ++ sep :: t) = l :: jsSplit sep t := by
  induction l with
  | nil => simp [jsSplit]
  | cons c cs ih =>
    simp only [List.mem_cons, not_or] at h
    simp only [List.cons_append, jsSplit, if_neg (Ne.symm h.1),
      List.append_eq, ih h.2, List.modifyHead_cons]

theorem jsSplit_joinWith {sep : Char} {ls : List JStr}
    (h : ∀ l ∈ ls, sep ∉ l) (hne : ls ≠ []) :
    jsSplit sep (joinWith sep ls) = ls := by
  induction ls with
  | nil => exact absurd rfl hne
  | cons l ls ih =>
    cases ls with
    | nil =>
      show jsSplit sep l = [l]
      exact jsSplit_of_not_mem (h l (List.mem_cons_self l []))
    | cons l' ls' =>
      show jsSplit sep (l ++ sep :: joinWith sep (l' :: ls')) = _
      rw [jsSplit_append_cons _ (h l (List.mem_cons_self l _)),
        ih (fun x hx => h x (List.mem_cons_of_mem l hx)) (by simp)]

theorem mem_joinWith_of_mem {sep : Char} {ls : List JStr} {l : JStr} {c : Char}
    (hl : l ∈ ls) (hc : c ∈ l) : c ∈ joinWith sep ls := by
  induction ls with
  | nil => cases hl
  | cons x xs ih =>
    cases xs with
    | nil =>
      rcases List.mem_cons.mp hl with h | h
      · subst h; exact hc
      · cases h
    | cons x' xs' =>
      show c ∈ x ++ sep :: joinWith sep (x' :: xs')
      rcases List.mem_cons.mp hl with h | h
      · subst h; exact List.mem_append_left _ hc
      · exact List.mem_append_right _ (List.mem_cons_of_mem sep (ih h))

theorem mem_of_mem_jsSplit {sep : Char} {s t : JStr} {c : Char}
    (ht : t ∈ jsSplit sep s) (hc : c ∈ t) : c ∈ s := by
  induction s generalizing t with
  | nil =>
    simp only [jsSplit, List.mem_singleton] at ht
    subst ht; cases hc
  | cons x xs ih =>
    simp only [jsSplit] at ht
    split at ht
    · rcases List.mem_cons.mp ht with h | h
      · subst h; cases hc
      · exact List.mem_cons_of_mem x (ih h hc)
    · rcases hsplit : jsSplit sep xs with _ | ⟨u, us⟩
      · exact absurd hsplit (jsSplit_ne_nil sep xs)
      · rw [hsplit, List.modifyHead_cons] at ht
        rcases List.mem_cons.mp ht with h | h
        · subst h
          rcases List.mem_cons.mp hc with h' | h'
          · subst h'; exact List.mem_cons_self c xs
          · exact List.mem_cons_of_mem x
              (ih (hsplit ▸ List.mem_cons_self u us) h')
        · exact List.mem_cons_of_mem x
            (ih (hsplit ▸ List.mem_cons_of_mem u h) hc)

theorem jsTrim_eq_nil_iff {s : JStr} :
    jsTrim s = [] ↔ ∀ c ∈ s, isWS c = true := by
  constructor
  · intro h c hc
    rw [jsTrim, List.reverse_eq_nil_iff, List.dropWhile_eq_nil_iff] at h
    rcases (List.takeWhile_append_dropWhile (p := isWS) (l := s)) ▸ hc |>
      List.mem_append.mp with h' | h'
    · exact List.mem_takeWhile_imp h'
    · exact h c (by simpa using List.mem_reverse.mpr h')
  · intro h
    rw [jsTrim, List.reverse_eq_nil_iff, List.dropWhile_eq_nil_iff]
    intro c hc
    exact h c ((List.dropWhile_sublist (p := isWS)).mem
      (List.mem_reverse.mp hc))

theorem jsTrim_ne_nil_of_mem {s : JStr} {c : Char}
    (hc : c ∈ s) (hws : isWS c = false) : jsTrim s ≠ [] := by
  intro h
  have := jsTrim_eq_nil_iff.mp h c hc
  rw [this] at hws
  cases hws

theorem exists_not_ws_of_jsTrim_ne_nil {s : JStr} (h : jsTrim s ≠ []) :
    ∃ c ∈ s, isWS c = false := by
  by_contra hall
  push_neg at hall
  exact h (jsTrim_eq_nil_iff.mpr fun c hc => by
    have := hall c hc
    cases hws : isWS c
    · exact absurd hws this
    · rfl)

end JsStr


/-! ## Concrete inputs used by counterexamples and witnesses -/

/-- A page-1 result carrying a continuation cursor. -/
def rrResult1 : ReadResult :=
  { relationship := true, afterResultCursor := some (str "c1"), tag := 1 }

/-- A final-page result carrying no cursor. -/
def rrResult2 : ReadResult :=
  { relationship := true, afterResultCursor := none, tag := 2 }

/-- Page 1 of a two-page `readRelationships` backend. -/
def rrPage1 : RRResponse := .arr [some rrResult1]

/-- Page 2 (final page, cursor omitted). -/
def rrPage2 : RRResponse := .arr [some rrResult2]

/-- A page-1 lookup result carrying a continuation cursor. -/
def lrResult1 : LookupResult :=
  { resourceObjectId := false, afterResultCursor := some (str "c1"), tag := 1 }

/-- A final-page lookup result carrying no cursor. -/
def lrResult2 : LookupResult :=
  { resourceObjectId := false, afterResultCursor := none, tag := 2 }

/-- Page 1 of a two-page lookup backend. -/
def lrPage1 : LookupResponse := .arr [some lrResult1]

/-- Page 2 (final page, cursor omitted). -/
def lrPage2 : LookupResponse := .arr [some lrResult2]

/-- The C4 schema text: a one-line definition followed by a multi-line one. -/
def schemaTwoDefs : JStr :=
  str "definition user \x7b\x7d\ndefinition doc \x7b\n  relation viewer: user\n\x7d"

/-- A leaf decision trace used by witnesses. -/
def leafTrace (id : JStr) (result : JStr) : DecisionTrace :=
  .node { objectType := str "document", objectId := id } (str "view")
    (str "PERMISSION_TYPE_PERMISSION")
    { object := some { objectType := str "user", objectId := str "alice" },
      optionalRelation := none }
    result none none

/-- A two-level decision trace used by witnesses: one root, two children. -/
def rootTrace : DecisionTrace :=
  .node { objectType := str "document", objectId := str "d0" } (str "view")
    (str "PERMISSION_TYPE_PERMISSION")
    { object := some { objectType := str "user", objectId := str "alice" },
      optionalRelation := none }
    (str "PERMISSIONSHIP_HAS_PERMISSION") none
    (some [leafTrace (str "d1") (str "PERMISSIONSHIP_HAS_PERMISSION"),
           leafTrace (str "d2") (str "PERMISSIONSHIP_NO_PERMISSION")])

/-- A line-level parser used by transport witnesses: accepts the digit lines
`1`, `2`, `3`. -/
def digitParse (l : JStr) : Option Nat :=
  if l = str "1" then some 1
  else if l = str "2" then some 2
  else if l = str "3" then some 3
  else none

/-- `checkPermission` params with `withTracing` left undefined. -/
def checkParamsNoTracing : CheckPermissionParams :=
  { consistency := some .fullyConsistent
    resource := some { objectType := str "document", objectId := str "d0" }
    permission := some (str "view")
    subject := some { object := { objectType := str "user", objectId := str "alice" },
                      optionalRelation := none }
    withTracing := none }

/-- `checkPermission` params with `withTracing` explicitly `false`. -/
def checkParamsTracingOff : CheckPermissionParams :=
  { checkParamsNoTracing with withTracing := some false }

/-! ## Supporting lemmas about the embedded operations -/

theorem indentOf_succ (d : Nat) : indentOf (d + 1) = indentOf d ++ str "  " := by
  simp [indentOf, List.replicate_succ']

theorem renderTraceNode_decomp (t : DecisionTrace) (d : Nat) :
    ∃ rest, renderTraceNode t d = traceLine t d ++ rest := by
  cases t with
  | node r p pt sj res dur sp =>
    cases sp with
    | none =>
      refine ⟨traceDurationLine dur d, ?_⟩
      rw [renderTraceNode.eq_def]
      simp
    | some ts =>
      refine ⟨traceDurationLine dur d ++
        (if ts.length > 0 then
          indentOf d ++ str "This was determined by:" ++ ['\n'] ++
            renderTraceList ts (d + 1)
        else []), ?_⟩
      rw [renderTraceNode.eq_def]
      simp [List.append_assoc]

theorem parseResponseLines_error_of_failure {α : Type} (parse : JStr → Option α)
    (ls : List JStr) (hfail : ∃ l ∈ ls, parse l = none) :
    ∃ e ∈ ls, parseResponseLines parse ls = .error e ∧ parse e = none := by
  induction ls with
  | nil => simp at hfail
  | cons l ls ih =>
    cases hl : parse l with
    | none =>
      exact ⟨l, List.mem_cons_self l ls, by simp [parseResponseLines, hl], hl⟩
    | some v =>
      obtain ⟨x, hx, hxf⟩ := hfail
      rcases List.mem_cons.mp hx with h | h
      · subst h; rw [hl] at hxf; cases hxf
      · obtain ⟨e, he, heq, hef⟩ := ih ⟨x, h, hxf⟩
        exact ⟨e, List.mem_cons_of_mem l he,
          by simp [parseResponseLines, hl, heq, Except.map], hef⟩

theorem parseRelationshipString_ok_shape {s : JStr} {p : ParsedRelationship}
    (h : parseRelationshipString s = .ok p) :
    '#' ∈ s ∧ countChar ':' (resourceSegment s) = 1 ∧
    countChar '@' (relationSubjectSegment s) = 1 ∧
    countChar ':' (subjectSegment s) = 1 := by
  simp only [parseRelationshipString] at h
  split at h
  · simp at h
  · rename_i hc1
    push_neg at hc1
    obtain ⟨hlen, hres⟩ := hc1
    have hsharp : '#' ∈ s := by
      have := length_jsSplit '#' s
      exact mem_of_countChar_pos (by omega)
    have hresseg : countChar ':' (resourceSegment s) = 1 := by
      have hcount := length_jsSplit ':' ((jsSplit '#' s).getD 0 [])
      rw [jsSplit_getD_zero '#' s] at hcount hres
      show countChar ':' (beforeChar '#' s) = 1
      omega
    have hseg : (jsSplit '#' s).getD 1 [] = relationSubjectSegment s :=
      jsSplit_getD_one_of_mem hsharp
    split at h
    · simp at h
    · rename_i hc2
      push_neg at hc2
      have hat : countChar '@' (relationSubjectSegment s) = 1 := by
        have hcount := length_jsSplit '@' ((jsSplit '#' s).getD 1 [])
        rw [hseg] at hcount hc2
        omega
      have hnosharpseg : '#' ∉ relationSubjectSegment s := by
        show '#' ∉ beforeChar '#' (afterChar '#' s)
        exact not_mem_beforeChar '#' _
      have hsp : (jsSplit '@' ((jsSplit '#' s).getD 1 [])).getD 1 [] =
          subjectSegment s := by
        rw [hseg, jsSplit_of_countChar_one hat]
        rfl
      have hnosharpsub : '#' ∉ subjectSegment s :=
        not_mem_afterChar hnosharpseg
      split at h
      · rename_i hcontains
        exfalso
        rw [hsp] at hcontains
        simp only [List.contains, List.elem_iff] at hcontains
        exact hnosharpsub hcontains
      · split at h
        · simp at h
        · rename_i hc3
          push_neg at hc3
          have hsub : countChar ':' (subjectSegment s) = 1 := by
            have hcount :=
              length_jsSplit ':' ((jsSplit '@' ((jsSplit '#' s).getD 1 [])).getD 1 [])
            rw [hsp] at hcount hc3
            omega
          exact ⟨hsharp, hresseg, hat, hsub⟩

/-! ## Claim theorems -/

/-- C1: the claim states that on an N-page array-shaped backend whose final
page's results omit the continuation cursor, each aggregator issues exactly N
requests and returns the pages' nested results concatenated in page order.
The code violates this for N = 2: because the `cursor` variable is never
cleared between pages, the termination test `cursor === null ||
results.length === 0` still sees page 1's cursor after the final page, so a
third request is issued (with the stale cursor) by each of
`readRelationships`, `lookupResources` and `lookupSubjects`; when that third
response is null the loop stops after three requests with the two results in
page order. -/
theorem aggregators_request_beyond_final_page :
    readRelationships [rrPage1, rrPage2] = none ∧
    readRelationships [rrPage1, rrPage2, .nullResp] =
      some ([rrResult1, rrResult2], 3) ∧
    lookupResources [lrPage1, lrPage2] = none ∧
    lookupResources [lrPage1, lrPage2, .nullResp] =
      some ([lrResult1, lrResult2], 3) ∧
    lookupSubjects [lrPage1, lrPage2] = none ∧
    lookupSubjects [lrPage1, lrPage2, .nullResp] =
      some ([lrResult1, lrResult2], 3) := by
  decide

/-- C2 counterexample: the claim states the loop terminates whenever the
current page yielded zero new results.  In the code the guard checks the
*total* accumulated `results.length`, not the current page's yield: after a
page-1 result with a cursor, an empty-array page 2 yields zero new results,
yet a third request is issued (`readRelationships` of only those two pages
is still running; with a null third response it stops after 3 requests). -/
theorem readRelationships_continues_after_empty_page :
    readRelationships [rrPage1, .arr []] = none ∧
    readRelationships [rrPage1, .arr [], .nullResp] = some ([rrResult1], 3) := by
  decide

/-- C2 amended: a backend whose (first) response is an empty JSON array makes
each aggregator terminate after exactly one request with the empty result
list — an empty array carries no result items, so the cursor is still unset
and the accumulated result list is empty, and the loop's guard
(`cursor === null || results.length === 0`, a test of the *total*
accumulator) fires. -/
theorem aggregators_terminate_on_empty_first_page
    (rest₁ : List RRResponse) (rest₂ rest₃ : List LookupResponse) :
    readRelationships (.arr [] :: rest₁) = some ([], 1) ∧
    lookupResources (.arr [] :: rest₂) = some ([], 1) ∧
    lookupSubjects (.arr [] :: rest₃) = some ([], 1) := by
  refine ⟨?_, ?_, ?_⟩ <;>
    simp [readRelationships, readRelationshipsLoop, lookupResources,
      lookupResourcesLoop, lookupSubjects, lookupSubjectsLoop, List.foldl]

theorem aggregators_terminate_on_empty_first_page_witness :
    readRelationships [.arr []] = some ([], 1) ∧
    lookupResources [.arr []] = some ([], 1) ∧
    lookupSubjects [.arr []] = some ([], 1) :=
  aggregators_terminate_on_empty_first_page [] [] []

/-- C3: the claim states `format(parse(s)) = s` for every grammar-conforming
relationship string, including those with the optional `#SUBJECT_RELATION`
suffix.  The code violates this for `a:b#r@c:d#e`: `split('#')` consumes
every `#`, so `subjectPart` (`c:d`, a substring of `parts[1]`) can never
contain `#`, the dead `subjectPart.includes('#')` branch never fires, and
the subject relation `e` (in `parts[2]`) is silently dropped; formatting the
parsed components yields `a:b#r@c:d ≠ a:b#r@c:d#e`. -/
theorem parseRelationshipString_drops_subject_relation :
    parseRelationshipString (str "a:b#r@c:d#e") =
      .ok { resourceType := str "a", resourceId := str "b", relation := str "r",
            subjectType := str "c", subjectId := str "d",
            optionalSubjectRelation := none } ∧
    roundTripRelationship (str "a:b#r@c:d#e") = some (str "a:b#r@c:d") ∧
    str "a:b#r@c:d" ≠ str "a:b#r@c:d#e" := by
  decide

/-- C4: the claim states the extractor emits two blocks, `user` and `doc`,
from `definition user \x7b\x7d\ndefinition doc \x7b\n  relation viewer:
user\n\x7d`.  The code emits only `doc`: on the line `definition user \x7b\x7d`
the matcher sets `braceCount = 1` and `continue`s, never counting the
closing brace on the same line, so the `user` block never reaches balance
zero and is overwritten when the next `definition` line arrives. -/
theorem extractObjectDefinitions_drops_single_line_definition :
    extractObjectDefinitionsFromSchema schemaTwoDefs = [str "doc"] ∧
    str "user" ∉ extractObjectDefinitionsFromSchema schemaTwoDefs := by
  decide

/-- C6 counterexample: the claim states parsing fails whenever the portion
after the first `#` does not contain exactly one `@`.  For
`a:b#r@c:d#x@y` that portion (`r@c:d#x@y`) contains two `@`s, yet the code
parses it successfully (everything from the second `#` on is ignored),
because the `@` check runs on `parts[1]` — the portion *between* the first
and second `#` — not on everything after the first `#`. -/
theorem parseRelationshipString_accepts_two_ats_after_second_hash :
    countChar '@' (afterChar '#' (str "a:b#r@c:d#x@y")) = 2 ∧
    parseRelationshipString (str "a:b#r@c:d#x@y") =
      .ok { resourceType := str "a", resourceId := str "b", relation := str "r",
            subjectType := str "c", subjectId := str "d",
            optionalSubjectRelation := none } := by
  decide

/-- C6 amended: `parseRelationshipString` fails with a format error on
`no-hash-or-at`, `a:b@c:d` and `a:b#r@c`, and in general whenever no `#`
separator exists, the resource segment does not contain exactly one `:`,
the portion *between the first and second `#`* (not everything after the
first `#`) does not contain exactly one `@`, or the subject segment (that
portion's text after its `@`) does not contain exactly one `:`. -/
theorem parseRelationshipString_error_conditions (s : JStr)
    (h : '#' ∉ s ∨ countChar ':' (resourceSegment s) ≠ 1 ∨
         countChar '@' (relationSubjectSegment s) ≠ 1 ∨
         countChar ':' (subjectSegment s) ≠ 1) :
    (∃ e, parseRelationshipString s = .error e) ∧
    parseRelationshipString (str "no-hash-or-at") =
      .error (.invalidRelationshipFormat (str "no-hash-or-at")) ∧
    parseRelationshipString (str "a:b@c:d") =
      .error (.invalidRelationshipFormat (str "a:b@c:d")) ∧
    parseRelationshipString (str "a:b#r@c") =
      .error (.invalidSubjectFormat (str "c")) := by
  refine ⟨?_, by decide, by decide, by decide⟩
  cases hp : parseRelationshipString s with
  | error e => exact ⟨e, rfl⟩
  | ok p =>
    obtain ⟨h1, h2, h3, h4⟩ := parseRelationshipString_ok_shape hp
    rcases h with h | h | h | h
    · exact absurd h1 h
    · exact absurd h2 h
    · exact absurd h3 h
    · exact absurd h4 h

theorem parseRelationshipString_error_conditions_witness :
    ∃ e, parseRelationshipString (str "a:b#r@c") = .error e :=
  (parseRelationshipString_error_conditions (str "a:b#r@c")
    (Or.inr (Or.inr (Or.inr (by decide))))).1

/-- C5: on a successful response body made of newline-separated parseable
lines, `makeRequest` returns the parsed values in input order — wrapped as a
sequence when more than one line remains after discarding blank lines, and
unwrapped when exactly one line does.  Stated for any line parser and any
line list whose non-blank lines are `l1, l2, l3` (resp. the single line `l`). -/
theorem processResponseBody_three_and_single {α : Type} (parse : JStr → Option α)
    (ls : List JStr) (l1 l2 l3 l : JStr) (v1 v2 v3 v : α)
    (hnl : ∀ x ∈ ls, '\n' ∉ x)
    (hfilter : ls.filter (fun x => !(jsTrim x).isEmpty) = [l1, l2, l3])
    (h1 : parse l1 = some v1) (h2 : parse l2 = some v2) (h3 : parse l3 = some v3)
    (hlnl : '\n' ∉ l) (hblank : (jsTrim l).isEmpty = false)
    (hv : parse l = some v) :
    processResponseBody parse (joinWith '\n' ls) = .ok (.many [v1, v2, v3]) ∧
    processResponseBody parse l = .ok (.single v) := by
  constructor
  · have hne : ls ≠ [] := by
      intro hnil
      rw [hnil] at hfilter
      simp at hfilter
    have hsplit := jsSplit_joinWith hnl hne
    have hl1mem : l1 ∈ ls.filter (fun x => !(jsTrim x).isEmpty) := by
      rw [hfilter]; simp
    have hl1 := List.mem_filter.mp hl1mem
    have hl1blank : jsTrim l1 ≠ [] := by
      intro hnil
      simp [hnil] at hl1
    have htext : jsTrim (joinWith '\n' ls) ≠ [] := by
      obtain ⟨c, hc, hws⟩ := exists_not_ws_of_jsTrim_ne_nil hl1blank
      exact jsTrim_ne_nil_of_mem (mem_joinWith_of_mem hl1.1 hc) hws
    simp only [processResponseBody]
    rw [if_neg htext, hsplit, hfilter]
    simp [parseResponseLines, h1, h2, h3, Except.map]
  · have hlne : jsTrim l ≠ [] := by
      intro hnil
      simp [hnil] at hblank
    simp only [processResponseBody]
    rw [if_neg hlne, jsSplit_of_not_mem hlnl]
    simp [List.filter, hblank, parseResponseLines, hv, Except.map]

theorem processResponseBody_three_and_single_witness :
    processResponseBody digitParse
        (joinWith '\n' [str "1", str "", str "2", str "3"]) =
      .ok (.many [1, 2, 3]) ∧
    processResponseBody digitParse (str "2") = .ok (.single 2) :=
  processResponseBody_three_and_single digitParse
    [str "1", str "", str "2", str "3"]
    (str "1") (str "2") (str "3") (str "2") 1 2 3 2
    (by decide) (by decide) (by decide) (by decide) (by decide)
    (by decide) (by decide) (by decide)

/-- C8: when some non-blank line of a successful response body fails to
parse, `makeRequest` fails the whole call with an error carrying an
offending (non-blank, unparseable) line of the body, and returns no
partially parsed results. -/
theorem processResponseBody_fails_on_invalid_line {α : Type}
    (parse : JStr → Option α) (text l : JStr)
    (hl : l ∈ jsSplit '\n' text) (hblank : (jsTrim l).isEmpty = false)
    (hparse : parse l = none) :
    ∃ e, processResponseBody parse text = .error e ∧ parse e = none ∧
      e ∈ jsSplit '\n' text ∧ (jsTrim e).isEmpty = false := by
  have hlne : jsTrim l ≠ [] := by
    intro hnil
    simp [hnil] at hblank
  have htext : jsTrim text ≠ [] := by
    obtain ⟨c, hc, hws⟩ := exists_not_ws_of_jsTrim_ne_nil hlne
    exact jsTrim_ne_nil_of_mem (mem_of_mem_jsSplit hl hc) hws
  have hlf : l ∈ (jsSplit '\n' text).filter (fun x => !(jsTrim x).isEmpty) :=
    List.mem_filter.mpr ⟨hl, by simp [hblank]⟩
  obtain ⟨e, he, heq, hef⟩ :=
    parseResponseLines_error_of_failure parse _ ⟨l, hlf, hparse⟩
  have hefilter := List.mem_filter.mp he
  refine ⟨e, ?_, hef, hefilter.1, by simpa using hefilter.2⟩
  simp only [processResponseBody]
  rw [if_neg htext, heq]

theorem processResponseBody_fails_on_invalid_line_witness :
    ∃ e, processResponseBody (fun _ => (none : Option Nat)) (str "x") =
      .error e ∧ (fun _ => (none : Option Nat)) e = none ∧
      e ∈ jsSplit '\n' (str "x") ∧ (jsTrim e).isEmpty = false :=
  processResponseBody_fails_on_invalid_line (fun _ => none) (str "x") (str "x")
    (by decide) (by decide) rfl

/-- C7: `createRelationshipFilter` omits every field whose argument is
absent or empty, nests subject fields under `optionalSubjectFilter` only
when `subjectType` is truthy (no subject filter is ever built without a
type, even if `subjectId`/`subjectRelation` are supplied), and with only
`resourceType = "document"` supplied returns exactly
`{resourceType: "document"}`. -/
theorem createRelationshipFilter_omission
    (resourceType resourceId relation subjectType subjectId subjectRelation :
      Option JStr) :
    (createRelationshipFilter (some (str "document")) none none none none none =
      { resourceType := some (str "document"), optionalResourceId := none,
        optionalRelation := none, optionalSubjectFilter := none }) ∧
    (truthyStr subjectType = false →
      (createRelationshipFilter resourceType resourceId relation subjectType
        subjectId subjectRelation).optionalSubjectFilter = none) ∧
    (truthyStr subjectType = true →
      ∃ sf, (createRelationshipFilter resourceType resourceId relation
          subjectType subjectId subjectRelation).optionalSubjectFilter =
        some sf ∧ sf.subjectType = subjectType.getD []) ∧
    (truthyStr resourceType = false →
      (createRelationshipFilter resourceType resourceId relation subjectType
        subjectId subjectRelation).resourceType = none) ∧
    (truthyStr resourceId = false →
      (createRelationshipFilter resourceType resourceId relation subjectType
        subjectId subjectRelation).optionalResourceId = none) ∧
    (truthyStr relation = false →
      (createRelationshipFilter resourceType resourceId relation subjectType
        subjectId subjectRelation).optionalRelation = none) := by
  refine ⟨by decide, ?_, ?_, ?_, ?_, ?_⟩ <;> intro h <;>
    simp only [createRelationshipFilter, h] <;>
    split_ifs <;> simp_all

theorem createRelationshipFilter_omission_witness :
    (createRelationshipFilter (some (str "document")) none none none none none =
      { resourceType := some (str "document"), optionalResourceId := none,
        optionalRelation := none, optionalSubjectFilter := none }) ∧
    (createRelationshipFilter none none none none (some (str "alice"))
      (some (str "member"))).optionalSubjectFilter = none :=
  ⟨(createRelationshipFilter_omission none none none none none none).1,
   (createRelationshipFilter_omission none none none none (some (str "alice"))
     (some (str "member"))).2.1 rfl⟩

/-- C9: rendering a two-level trace (a root whose `subProblems` hold exactly
the children `c1, c2`) produces the root's line before both children's
lines, with the children's lines in input order, each child's line indented
exactly two spaces deeper than the root's; rendering an absent trace
returns the fixed no-trace-data line. -/
theorem generateTraceExplanation_two_level
    (root c1 c2 : DecisionTrace) (d : Nat)
    (hsp : root.subProblems = some [c1, c2]) :
    (∃ m1 m2 t, generateTraceExplanation (some root) d =
      traceLine root d ++ m1 ++ traceLine c1 (d + 1) ++ m2 ++
        traceLine c2 (d + 1) ++ t) ∧
    traceLine root d = indentOf d ++ traceLineBody root ∧
    traceLine c1 (d + 1) = indentOf d ++ str "  " ++ traceLineBody c1 ∧
    traceLine c2 (d + 1) = indentOf d ++ str "  " ++ traceLineBody c2 ∧
    generateTraceExplanation none d = str "No trace data available" := by
  obtain ⟨rest1, he1⟩ := renderTraceNode_decomp c1 (d + 1)
  obtain ⟨rest2, he2⟩ := renderTraceNode_decomp c2 (d + 1)
  cases root with
  | node r p pt sj res dur sp =>
    simp only [DecisionTrace.subProblems] at hsp
    subst hsp
    refine ⟨⟨traceDurationLine dur d ++ indentOf d ++
        str "This was determined by:" ++ ['\n'], rest1, rest2, ?_⟩,
      rfl, ?_, ?_, rfl⟩
    · show renderTraceNode _ d = _
      rw [renderTraceNode.eq_def]
      simp [renderTraceList, he1, he2, List.append_assoc]
    · simp [traceLine, indentOf_succ, List.append_assoc]
    · simp [traceLine, indentOf_succ, List.append_assoc]

theorem generateTraceExplanation_two_level_witness :
    ∃ m1 m2 t, generateTraceExplanation (some rootTrace) 0 =
      traceLine rootTrace 0 ++ m1 ++
        traceLine (leafTrace (str "d1") (str "PERMISSIONSHIP_HAS_PERMISSION"))
          1 ++ m2 ++
        traceLine (leafTrace (str "d2") (str "PERMISSIONSHIP_NO_PERMISSION"))
          1 ++ t :=
  (generateTraceExplanation_two_level rootTrace
    (leafTrace (str "d1") (str "PERMISSIONSHIP_HAS_PERMISSION"))
    (leafTrace (str "d2") (str "PERMISSIONSHIP_NO_PERMISSION")) 0 rfl).1

/-- C10: `checkPermission` sends the caller's parameters through to the
request body unchanged except that `withTracing` is set to `true` exactly
when the caller left it undefined; a caller-supplied value (including
`false`) is preserved verbatim. -/
theorem checkPermissionBody_passthrough (p : CheckPermissionParams) :
    ((checkPermissionBody p).consistency = p.consistency ∧
     (checkPermissionBody p).resource = p.resource ∧
     (checkPermissionBody p).permission = p.permission ∧
     (checkPermissionBody p).subject = p.subject) ∧
    (p.withTracing = none → (checkPermissionBody p).withTracing = some true) ∧
    (∀ b, p.withTracing = some b →
      (checkPermissionBody p).withTracing = some b) := by
  refine ⟨?_, ?_, ?_⟩
  · by_cases h : p.withTracing = none <;> simp [checkPermissionBody, h]
  · intro h
    simp [checkPermissionBody, h]
  · intro b hb
    simp [checkPermissionBody, hb]

theorem checkPermissionBody_passthrough_witness :
    (checkPermissionBody checkParamsNoTracing).withTracing = some true ∧
    (checkPermissionBody checkParamsTracingOff).withTracing = some false ∧
    (checkPermissionBody checkParamsTracingOff).permission =
      checkParamsTracingOff.permission :=
  ⟨(checkPermissionBody_passthrough checkParamsNoTracing).2.1 rfl,
   (checkPermissionBody_passthrough checkParamsTracingOff).2.2 false rfl,
   (checkPermissionBody_passthrough checkParamsTracingOff).1.2.2.1⟩
